import Mathlib

/-!
Verification development for the Animal-Identification-Bot repository
(`src/bot/telegramBot.js` and collaborating services).

The JavaScript source is shallowly embedded as executable Lean
definitions:

* JS `Map` objects (string- or number-keyed) are modelled as
  insertion-ordered association lists (`List (κ × α)`); `Map.get`,
  `Map.set` and `Map.delete` become `lookupA`, `setA` and `eraseA`.
  `Map.set` on an existing key keeps the entry at its original
  position, exactly as a JS `Map` does.
* JS strings are modelled as `List Char`; `String(n)` for a JS number
  that holds an integer is modelled by `jsIntToChars`, and
  `String.prototype.startsWith` by `List.isPrefixOf`.
* Millisecond timestamps (`Date.now()`) are modelled as `Int` and passed
  explicitly to every operation that reads the clock.
* JS `%` and integer division on the (nonnegative-divisor) date
  arithmetic are modelled with `Int.emod` / `Int.ediv`, which agree with
  the JS computations on the values that occur.
-/

/-- JS `Map.prototype.get` on an insertion-ordered association list. -/
def lookupA {κ α : Type} [DecidableEq κ] : List (κ × α) → κ → Option α
  | [], _ => none
  | (k, v) :: rest, key => if k = key then some v else lookupA rest key

/-- JS `Map.prototype.set`: replace in place if the key exists, else append. -/
def setA {κ α : Type} [DecidableEq κ] : List (κ × α) → κ → α → List (κ × α)
  | [], key, v => [(key, v)]
  | (k, w) :: rest, key, v =>
      if k = key then (k, v) :: rest else (k, w) :: setA rest key v

/-- JS `Map.prototype.delete`: remove the (unique) entry for a key. -/
def eraseA {κ α : Type} [DecidableEq κ] : List (κ × α) → κ → List (κ × α)
  | [], _ => []
  | (k, w) :: rest, key =>
      if k = key then rest else (k, w) :: eraseA rest key

theorem lookupA_setA_self {κ α : Type} [DecidableEq κ]
    (l : List (κ × α)) (k : κ) (v : α) : lookupA (setA l k v) k = some v := by
  induction l with
  | nil => simp [setA, lookupA]
  | cons hd tl ih =>
      obtain ⟨k0, v0⟩ := hd
      by_cases h : k0 = k <;> simp [setA, lookupA, h, ih]

theorem lookupA_setA_ne {κ α : Type} [DecidableEq κ]
    (l : List (κ × α)) (k k' : κ) (v : α) (h : k' ≠ k) :
    lookupA (setA l k v) k' = lookupA l k' := by
  have h2 : k ≠ k' := Ne.symm h
  induction l with
  | nil => simp [setA, lookupA, h2]
  | cons hd tl ih =>
      obtain ⟨k0, v0⟩ := hd
      by_cases h0 : k0 = k
      · subst h0
        simp [setA, lookupA, h2]
      · by_cases h1 : k0 = k' <;> simp [setA, lookupA, h0, h1, h, ih]

theorem lookupA_eraseA_ne {κ α : Type} [DecidableEq κ]
    (l : List (κ × α)) (k k' : κ) (h : k' ≠ k) :
    lookupA (eraseA l k) k' = lookupA l k' := by
  have h2 : k ≠ k' := Ne.symm h
  induction l with
  | nil => simp [eraseA]
  | cons hd tl ih =>
      obtain ⟨k0, v0⟩ := hd
      by_cases h0 : k0 = k
      · subst h0
        simp [eraseA, lookupA, h2]
      · by_cases h1 : k0 = k' <;> simp [eraseA, lookupA, h0, h1, h, ih]

theorem lookupA_of_not_memKeys {κ α : Type} [DecidableEq κ]
    (l : List (κ × α)) (k : κ) (h : k ∉ l.map Prod.fst) : lookupA l k = none := by
  induction l with
  | nil => rfl
  | cons hd tl ih =>
      obtain ⟨k0, v0⟩ := hd
      simp only [List.map_cons, List.mem_cons] at h
      push_neg at h
      have h2 : k0 ≠ k := Ne.symm h.1
      simp [lookupA, h2, ih h.2]

theorem lookupA_eraseA_self {κ α : Type} [DecidableEq κ]
    (l : List (κ × α)) (k : κ) (hnd : (l.map Prod.fst).Nodup) :
    lookupA (eraseA l k) k = none := by
  induction l with
  | nil => simp [eraseA, lookupA]
  | cons hd tl ih =>
      obtain ⟨k0, v0⟩ := hd
      simp only [List.map_cons, List.nodup_cons] at hnd
      by_cases h0 : k0 = k
      · subst h0
        simpa [eraseA] using lookupA_of_not_memKeys tl k0 hnd.1
      · simp [eraseA, lookupA, h0, ih hnd.2]

/-!
## JS decimal rendering of integers

Template strings such as `` `user_${userId}` `` and `` `${chatId}_` ``
render an integral JS number in decimal, with a leading `-` when
negative.  We model this with `Nat.digits`.
-/

/-- The character for one decimal digit (digits are always < 10 here). -/
def decDigitChar (d : Nat) : Char :=
  if d = 0 then '0' else if d = 1 then '1' else if d = 2 then '2'
  else if d = 3 then '3' else if d = 4 then '4' else if d = 5 then '5'
  else if d = 6 then '6' else if d = 7 then '7' else if d = 8 then '8'
  else if d = 9 then '9' else '?'

/-- Division-loop core of decimal rendering (`fuel` bounds the number of
digits; any `fuel ≥ n` is enough). -/
def natToCharsCore : Nat → Nat → List Char
  | 0, _ => []
  | fuel + 1, n =>
      if n = 0 then []
      else natToCharsCore fuel (n / 10) ++ [decDigitChar (n % 10)]

/-- Decimal rendering of a natural number, most significant digit first. -/
def natToChars (n : Nat) : List Char :=
  if n = 0 then ['0'] else natToCharsCore n n

/-- JS `String(i)` for an integral number `i`. -/
def jsIntToChars : Int → List Char
  | Int.ofNat n => natToChars n
  | Int.negSucc n => '-' :: natToChars (n + 1)

theorem decDigitChar_ne_underscore (d : Nat) : decDigitChar d ≠ '_' := by
  unfold decDigitChar
  split_ifs <;> decide

theorem decDigitChar_ne_dash (d : Nat) : decDigitChar d ≠ '-' := by
  unfold decDigitChar
  split_ifs <;> decide

theorem decDigitChar_injOn (d e : Nat) (hd : d < 10) (he : e < 10)
    (h : decDigitChar d = decDigitChar e) : d = e := by
  interval_cases d <;> interval_cases e <;> simp_all [decDigitChar]

theorem natToCharsCore_eq_digits (fuel n : Nat) (h : n ≤ fuel) :
    natToCharsCore fuel n = (Nat.digits 10 n).reverse.map decDigitChar := by
  induction fuel generalizing n with
  | zero =>
      have hn : n = 0 := by omega
      subst hn
      simp [natToCharsCore]
  | succ f ih =>
      by_cases hn : n = 0
      · subst hn
        simp [natToCharsCore]
      · have hdiv : n / 10 < n := Nat.div_lt_self (Nat.pos_of_ne_zero hn) (by norm_num)
        rw [natToCharsCore, if_neg hn, ih (n / 10) (by omega),
          Nat.digits_def' (by norm_num : (1:Nat) < 10) (Nat.pos_of_ne_zero hn)]
        simp

theorem natToChars_eq_digits (n : Nat) :
    natToChars n =
      if n = 0 then ['0'] else ((Nat.digits 10 n).reverse).map decDigitChar := by
  unfold natToChars
  by_cases hn : n = 0
  · simp [hn]
  · simp [hn, natToCharsCore_eq_digits n n le_rfl]

theorem underscore_not_mem_natToChars (n : Nat) : '_' ∉ natToChars n := by
  rw [natToChars_eq_digits]
  split
  · decide
  · intro hmem
    simp only [List.mem_map, List.mem_reverse] at hmem
    obtain ⟨d, _, hd⟩ := hmem
    exact decDigitChar_ne_underscore d hd

theorem underscore_not_mem_jsIntToChars (i : Int) : '_' ∉ jsIntToChars i := by
  cases i with
  | ofNat n => exact underscore_not_mem_natToChars n
  | negSucc n =>
      intro hmem
      simp only [jsIntToChars, List.mem_cons] at hmem
      rcases hmem with h | h
      · exact absurd h.symm (by decide)
      · exact underscore_not_mem_natToChars (n + 1) h

theorem natToChars_eq_singleton_zero (n : Nat) (h : natToChars n = ['0']) :
    n = 0 := by
  by_contra hn
  rw [natToChars_eq_digits, if_neg hn] at h
  obtain ⟨d, hd_mem, hd⟩ : ∃ d, (Nat.digits 10 n).reverse = [d] ∧ decDigitChar d = '0' := by
    rcases hrev : (Nat.digits 10 n).reverse with _ | ⟨d, rest⟩
    · simp [hrev] at h
    · rcases rest with _ | ⟨e, rest2⟩
      · refine ⟨d, rfl, ?_⟩
        simpa [hrev] using h
      · simp [hrev] at h
  have hsing : Nat.digits 10 n = [d] := by
    have := congrArg List.reverse hd_mem
    simpa using this
  have hd10 : d < 10 := by
    have hmem : d ∈ Nat.digits 10 n := by rw [hsing]; exact List.mem_singleton.2 rfl
    exact Nat.digits_lt_base (by norm_num) hmem
  have hd0 : d = 0 := by
    have h0 : decDigitChar d = decDigitChar 0 := by
      rw [hd]; rfl
    exact decDigitChar_injOn d 0 hd10 (by norm_num) h0
  have hzero : n = 0 := by
    conv_lhs => rw [← Nat.ofDigits_digits 10 n]
    rw [hsing, hd0]
    simp [Nat.ofDigits]
  exact hn hzero

theorem natToChars_injective (m n : Nat) (h : natToChars m = natToChars n) :
    m = n := by
  by_cases hm : m = 0
  · subst hm
    have : natToChars n = ['0'] := by
      rw [← h]; rfl
    exact (natToChars_eq_singleton_zero n this).symm
  by_cases hn : n = 0
  · subst hn
    have : natToChars m = ['0'] := by
      rw [h]; rfl
    exact natToChars_eq_singleton_zero m this
  rw [natToChars_eq_digits, natToChars_eq_digits, if_neg hm, if_neg hn] at h
  have hlen : (Nat.digits 10 m).reverse.length = (Nat.digits 10 n).reverse.length := by
    have := congrArg List.length h
    simpa using this
  have hdig : (Nat.digits 10 m).reverse = (Nat.digits 10 n).reverse := by
    apply List.ext_getElem hlen
    intro i h1 h2
    have hlt1 : (Nat.digits 10 m).reverse[i] < 10 := by
      have hmem : (Nat.digits 10 m).reverse[i] ∈ Nat.digits 10 m := by
        have hx : (Nat.digits 10 m).reverse[i] ∈ (Nat.digits 10 m).reverse :=
          List.getElem_mem h1
        exact List.mem_reverse.mp hx
      exact Nat.digits_lt_base (by norm_num) hmem
    have hlt2 : (Nat.digits 10 n).reverse[i] < 10 := by
      have hmem : (Nat.digits 10 n).reverse[i] ∈ Nat.digits 10 n := by
        have hx : (Nat.digits 10 n).reverse[i] ∈ (Nat.digits 10 n).reverse :=
          List.getElem_mem h2
        exact List.mem_reverse.mp hx
      exact Nat.digits_lt_base (by norm_num) hmem
    have hc : decDigitChar ((Nat.digits 10 m).reverse[i]) =
        decDigitChar ((Nat.digits 10 n).reverse[i]) := by
      have h1' := congrArg (fun l => l[i]?) h
      simp only [List.getElem?_map] at h1'
      rw [List.getElem?_eq_getElem h1, List.getElem?_eq_getElem h2] at h1'
      simpa using h1'
    exact decDigitChar_injOn _ _ hlt1 hlt2 hc
  have hdig2 : Nat.digits 10 m = Nat.digits 10 n := by
    have := congrArg List.reverse hdig
    simpa using this
  calc m = Nat.ofDigits 10 (Nat.digits 10 m) := (Nat.ofDigits_digits 10 m).symm
    _ = Nat.ofDigits 10 (Nat.digits 10 n) := by rw [hdig2]
    _ = n := Nat.ofDigits_digits 10 n

theorem natToChars_ne_nil (n : Nat) : natToChars n ≠ [] := by
  rw [natToChars_eq_digits]
  split
  · simp
  · next hn =>
      intro hnil
      have h1 := congrArg List.length hnil
      simp only [List.length_map, List.length_reverse, List.length_nil] at h1
      have h0 : Nat.digits 10 n = [] := List.length_eq_zero.mp h1
      exact hn (Nat.digits_eq_nil_iff_eq_zero.mp h0)

theorem dash_not_mem_natToChars (n : Nat) : '-' ∉ natToChars n := by
  rw [natToChars_eq_digits]
  split
  · decide
  · intro hmem
    simp only [List.mem_map, List.mem_reverse] at hmem
    obtain ⟨d, _, hd⟩ := hmem
    exact decDigitChar_ne_dash d hd

theorem jsIntToChars_injective (i j : Int) (h : jsIntToChars i = jsIntToChars j) :
    i = j := by
  cases i with
  | ofNat m =>
      cases j with
      | ofNat n =>
          simp only [jsIntToChars] at h
          exact congrArg Int.ofNat (natToChars_injective m n h)
      | negSucc n =>
          exfalso
          simp only [jsIntToChars] at h
          have hhd : '-' ∈ natToChars m := by
            rw [h]; exact List.mem_cons_self _ _
          exact dash_not_mem_natToChars m hhd
  | negSucc m =>
      cases j with
      | ofNat n =>
          exfalso
          simp only [jsIntToChars] at h
          have hhd : '-' ∈ natToChars n := by
            rw [← h]; exact List.mem_cons_self _ _
          exact dash_not_mem_natToChars n hhd
      | negSucc n =>
          simp only [jsIntToChars, List.cons.injEq, true_and] at h
          have hmn : m = n := by
            have := natToChars_injective (m + 1) (n + 1) h
            omega
          rw [hmn]

/-!
## WeeklyRateLimiter (telegramBot.js lines 322-580)

Limits: 50 requests/week per group, 25 requests/week per user (PM),
reset every Monday 00:00 Singapore time (UTC+8).  `this.usage` is a
`Map<string, {count, resetAt}>`.
-/

/-- `{count, resetAt}` usage record of the weekly rate limiter. -/
structure UsageData where
  count : Nat
  resetAt : Int
deriving DecidableEq, Repr

/-- Constructor options of `WeeklyRateLimiter`. -/
structure LimiterConfig where
  maxGroupRequestsPerWeek : Nat
  maxPmRequestsPerWeek : Nat
deriving DecidableEq, Repr

/-- The instance built at line 576: 50/week groups, 25/week PMs. -/
def botLimiterConfig : LimiterConfig :=
  { maxGroupRequestsPerWeek := 50, maxPmRequestsPerWeek := 25 }

/-- The limiter's `this.usage` map. -/
structure LimiterState where
  usage : List (List Char × UsageData)
deriving DecidableEq, Repr

/-- `_isPrivateChat`: private chats have positive IDs, groups negative. -/
def isPrivateChat (chatId : Int) : Bool :=
  chatId > 0

/-- The fixed string pieces of the two key templates. -/
def userKeyTag : List Char :=
  ['u', 's', 'e', 'r', '_']

def groupKeyTag : List Char :=
  ['g', 'r', 'o', 'u', 'p', '_']

/-- `_getKeyAndLimit`: PM requests are keyed by user, group requests by
chat, each with its own weekly limit. -/
def getKeyAndLimit (cfg : LimiterConfig) (chatId userId : Int) :
    List Char × Nat × Bool :=
  if isPrivateChat chatId then
    (userKeyTag ++ jsIntToChars userId, cfg.maxPmRequestsPerWeek, true)
  else
    (groupKeyTag ++ jsIntToChars chatId, cfg.maxGroupRequestsPerWeek, false)

/-- Milliseconds per day. -/
def msPerDay : Int := 86400000

/-- Singapore is UTC+8: offset in milliseconds. -/
def sgOffset : Int := 8 * 60 * 60 * 1000

/-- The `daysUntilMonday` computation of `_getNextMondayReset`:
`(8 - currentDay) % 7`, forced to a full week when the result is 0
(the `getHours() >= 0` guard is always true, so Monday always rolls a
full week forward). `dow` uses the JS convention 0 = Sunday. -/
def daysUntilNextMonday (dow : Int) : Int :=
  if (8 - dow) % 7 = 0 then 7 else (8 - dow) % 7

/-- `_getNextMondayReset`: next Monday 00:00 Singapore time, as a UTC
millisecond timestamp (the code builds the Singapore wall-clock date and
subtracts 8 hours).  Day 0 of the epoch (1970-01-01) is a Thursday,
hence the `+ 4` to obtain the JS `getDay()` number. -/
def getNextMondayReset (now : Int) : Int :=
  ((now + sgOffset) / msPerDay
     + daysUntilNextMonday (((now + sgOffset) / msPerDay + 4) % 7))
    * msPerDay - sgOffset

/-- Spec-side characterisation (for the reset-anchoring claim): `t` is an
occurrence of Monday 00:00 in the Asia/Singapore timezone, expressed as a
universal (UTC) millisecond timestamp. -/
def specIsMondayMidnightSG (t : Int) : Prop :=
  (t + sgOffset) % msPerDay = 0 ∧
  ((t + sgOffset) / msPerDay + 4) % 7 = 1

instance (t : Int) : Decidable (specIsMondayMidnightSG t) := by
  unfold specIsMondayMidnightSG
  infer_instance

/-- `_getUsage`: lazily create the record, then lazily reset it when the
stored reset time has passed.  Returns the record the caller sees and
the updated map. -/
def getUsage (s : LimiterState) (key : List Char) (now : Int) :
    UsageData × LimiterState :=
  -- if (!this.usage.has(key)) this.usage.set(key, {count: 0, resetAt: next})
  let u0 :=
    match lookupA s.usage key with
    | none => setA s.usage key { count := 0, resetAt := getNextMondayReset now }
    | some _ => s.usage
  -- const data = this.usage.get(key)
  let data := (lookupA u0 key).getD { count := 0, resetAt := getNextMondayReset now }
  -- if (Date.now() >= data.resetAt) { data.count = 0; data.resetAt = next }
  if now ≥ data.resetAt then
    let d : UsageData := { count := 0, resetAt := getNextMondayReset now }
    (d, ⟨setA u0 key d⟩)
  else
    (data, ⟨u0⟩)

/-- Result record of `checkLimit`. -/
structure CheckResult where
  allowed : Bool
  remaining : Nat
  resetAt : Int
  used : Nat
  limit : Nat
  isPrivate : Bool
deriving DecidableEq, Repr

/-- `checkLimit(chatId, userId)`. `Math.max(0, limit - count)` is Nat
truncated subtraction. -/
def checkLimit (cfg : LimiterConfig) (s : LimiterState)
    (chatId userId now : Int) : CheckResult × LimiterState :=
  let kl := getKeyAndLimit cfg chatId userId
  let r := getUsage s kl.1 now
  ({ allowed := r.1.count < kl.2.1,
     remaining := kl.2.1 - r.1.count,
     resetAt := r.1.resetAt,
     used := r.1.count,
     limit := kl.2.1,
     isPrivate := kl.2.2 }, r.2)

/-- Result record of `consume`. -/
structure ConsumeResult where
  success : Bool
  remaining : Nat
deriving DecidableEq, Repr

/-- `consume(chatId, userId)`: increment iff `count < limit`. -/
def consume (cfg : LimiterConfig) (s : LimiterState)
    (chatId userId now : Int) : ConsumeResult × LimiterState :=
  let kl := getKeyAndLimit cfg chatId userId
  let r := getUsage s kl.1 now
  if r.1.count ≥ kl.2.1 then
    ({ success := false, remaining := 0 }, r.2)
  else
    ({ success := true, remaining := kl.2.1 - (r.1.count + 1) },
     ⟨setA r.2.usage kl.1 { count := r.1.count + 1, resetAt := r.1.resetAt }⟩)

/-- C4: for every fixed value of `now`, `_getNextMondayReset` computes
the next occurrence of Monday 00:00 in the Asia/Singapore timezone
(UTC+8) expressed as a universal timestamp: the result is such an
occurrence, it is strictly greater than `now`, and no such occurrence
lies strictly between `now` and the result. -/
theorem C4_reset_anchoring (now : Int) :
    now < getNextMondayReset now ∧
    specIsMondayMidnightSG (getNextMondayReset now) ∧
    (∀ t : Int, now < t → t < getNextMondayReset now →
      ¬ specIsMondayMidnightSG t) := by
  unfold getNextMondayReset specIsMondayMidnightSG daysUntilNextMonday msPerDay sgOffset
  split <;>
    refine ⟨by omega, ⟨by omega, by omega⟩, ?_⟩ <;>
    · intro t h1 h2 hc
      obtain ⟨hc1, hc2⟩ := hc
      omega

/-- Witness for C4 at `now = 0` (1970-01-01 08:00 SGT, a Thursday): the
next reset is 1970-01-05 00:00 SGT = 316800000 ms UTC, and e.g. `t = 100`
is not a Monday midnight. -/
theorem C4_reset_anchoring_witness :
    (0:Int) < getNextMondayReset 0 ∧
    specIsMondayMidnightSG (getNextMondayReset 0) ∧
    ¬ specIsMondayMidnightSG 100 :=
  ⟨(C4_reset_anchoring 0).1, (C4_reset_anchoring 0).2.1,
   (C4_reset_anchoring 0).2.2 100 (by norm_num) (by decide)⟩

theorem setA_setA {κ α : Type} [DecidableEq κ]
    (l : List (κ × α)) (k : κ) (v w : α) :
    setA (setA l k v) k w = setA l k w := by
  induction l with
  | nil => simp [setA]
  | cons hd tl ih =>
      obtain ⟨k0, v0⟩ := hd
      by_cases h0 : k0 = k <;> simp [setA, h0, ih]

theorem mem_of_lookupA {κ α : Type} [DecidableEq κ]
    (l : List (κ × α)) (k : κ) (v : α) (h : lookupA l k = some v) :
    (k, v) ∈ l := by
  induction l with
  | nil => simp [lookupA] at h
  | cons hd tl ih =>
      obtain ⟨k0, v0⟩ := hd
      by_cases h0 : k0 = k
      · subst h0
        simp [lookupA] at h
        simp [h]
      · simp only [lookupA, if_neg h0] at h
        exact List.mem_cons_of_mem _ (ih h)

theorem isPrefixOf_append_self (l t : List Char) :
    l.isPrefixOf (l ++ t) = true := by
  induction l with
  | nil => simp [List.isPrefixOf]
  | cons a as ih => simp [List.isPrefixOf, ih]

/-- The `user_…` and `group_…` rate-limit keys never coincide: they start
with different characters. -/
theorem userKey_ne_groupKey (u c : Int) :
    userKeyTag ++ jsIntToChars u ≠ groupKeyTag ++ jsIntToChars c := by
  intro h
  have hhd := congrArg List.head? h
  simp [userKeyTag, groupKeyTag] at hhd

theorem userTag_not_prefixOf_groupKey (x : List Char) :
    userKeyTag.isPrefixOf (groupKeyTag ++ x) = false := by
  simp [userKeyTag, groupKeyTag, List.isPrefixOf]

/-- The weekly limit that belongs to a key, read back from the key's
shape (`user_…` keys carry the PM limit, all others the group limit). -/
def keyLimit (cfg : LimiterConfig) (key : List Char) : Nat :=
  if userKeyTag.isPrefixOf key then cfg.maxPmRequestsPerWeek
  else cfg.maxGroupRequestsPerWeek

theorem keyLimit_coherent (cfg : LimiterConfig) (chatId userId : Int) :
    keyLimit cfg (getKeyAndLimit cfg chatId userId).1 =
      (getKeyAndLimit cfg chatId userId).2.1 := by
  unfold getKeyAndLimit keyLimit
  by_cases h : isPrivateChat chatId
  · simp [h, isPrefixOf_append_self]
  · simp [h, userTag_not_prefixOf_groupKey]

theorem getUsage_count_cases (s : LimiterState) (key : List Char) (now : Int) :
    (getUsage s key now).1.count = 0 ∨
    lookupA s.usage key = some (getUsage s key now).1 := by
  unfold getUsage
  rcases hl : lookupA s.usage key with _ | data
  · simp only [hl]
    split
    · left; rfl
    · left
      simp [lookupA_setA_self]
  · simp only [hl]
    split
    · left; rfl
    · right
      simp [hl]

theorem getUsage_state_cases (s : LimiterState) (key : List Char) (now : Int) :
    (getUsage s key now).2.usage = setA s.usage key (getUsage s key now).1 ∨
    ((getUsage s key now).2.usage = s.usage ∧
      lookupA s.usage key = some (getUsage s key now).1) := by
  unfold getUsage
  rcases hl : lookupA s.usage key with _ | data
  · simp only [hl]
    split
    · left
      simp [setA_setA]
    · left
      simp [lookupA_setA_self]
  · simp only [hl]
    split
    · left; rfl
    · right
      simp [hl]

theorem getUsage_frame (s : LimiterState) (key : List Char) (now : Int)
    (k : List Char) (hk : k ≠ key) :
    lookupA (getUsage s key now).2.usage k = lookupA s.usage k := by
  rcases getUsage_state_cases s key now with h | ⟨h, _⟩
  · rw [h, lookupA_setA_ne _ _ _ _ hk]
  · rw [h]

theorem consume_frame (cfg : LimiterConfig) (s : LimiterState)
    (chatId userId now : Int) (k : List Char)
    (hk : k ≠ (getKeyAndLimit cfg chatId userId).1) :
    lookupA (consume cfg s chatId userId now).2.usage k = lookupA s.usage k := by
  simp only [consume]
  split
  · exact getUsage_frame s _ now k hk
  · simp only
    rw [lookupA_setA_ne _ _ _ _ hk]
    exact getUsage_frame s _ now k hk

/-- C10: the quota key and limit depend only on the sign of the chat id.
For `chatId > 0` the key is `user_<userId>` with the PM limit 25; for
`chatId ≤ 0` the key is `group_<chatId>` (independent of the user) with
the group limit 50.  Consequently a private-chat `consume` never changes
any group counter, and a group `consume` never changes any user counter. -/
theorem C10_key_selection (s : LimiterState) (chatId userId now : Int) :
    (chatId > 0 →
      getKeyAndLimit botLimiterConfig chatId userId =
        (userKeyTag ++ jsIntToChars userId, 25, true)) ∧
    (chatId ≤ 0 →
      getKeyAndLimit botLimiterConfig chatId userId =
        (groupKeyTag ++ jsIntToChars chatId, 50, false)) ∧
    (chatId > 0 → ∀ c : Int,
      lookupA (consume botLimiterConfig s chatId userId now).2.usage
          (groupKeyTag ++ jsIntToChars c) =
        lookupA s.usage (groupKeyTag ++ jsIntToChars c)) ∧
    (chatId ≤ 0 → ∀ u : Int,
      lookupA (consume botLimiterConfig s chatId userId now).2.usage
          (userKeyTag ++ jsIntToChars u) =
        lookupA s.usage (userKeyTag ++ jsIntToChars u)) := by
  have hpos : chatId > 0 →
      getKeyAndLimit botLimiterConfig chatId userId =
        (userKeyTag ++ jsIntToChars userId, 25, true) := by
    intro h
    unfold getKeyAndLimit isPrivateChat botLimiterConfig
    simp [h]
  have hneg : chatId ≤ 0 →
      getKeyAndLimit botLimiterConfig chatId userId =
        (groupKeyTag ++ jsIntToChars chatId, 50, false) := by
    intro h
    have h2 : ¬ (chatId > 0) := by omega
    unfold getKeyAndLimit isPrivateChat botLimiterConfig
    simp [h2]
  refine ⟨hpos, hneg, ?_, ?_⟩
  · intro h c
    apply consume_frame
    rw [hpos h]
    exact (userKey_ne_groupKey userId c).symm
  · intro h u
    apply consume_frame
    rw [hneg h]
    exact userKey_ne_groupKey u chatId

/-- A concrete limiter state used to witness C10: one group counter. -/
def c10state : LimiterState :=
  ⟨[(groupKeyTag ++ jsIntToChars (-12), ⟨3, 999⟩)]⟩

/-- Witness for C10: private chat 5 / user 7 uses the `user_7` key with
limit 25; group chat -12 uses the `group_-12` key with limit 50; a
private-chat consume leaves the group -12 counter untouched. -/
theorem C10_key_selection_witness :
    getKeyAndLimit botLimiterConfig 5 7 =
      (userKeyTag ++ jsIntToChars 7, 25, true) ∧
    getKeyAndLimit botLimiterConfig (-12) 7 =
      (groupKeyTag ++ jsIntToChars (-12), 50, false) ∧
    lookupA (consume botLimiterConfig c10state 5 7 0).2.usage
        (groupKeyTag ++ jsIntToChars (-12)) =
      lookupA c10state.usage (groupKeyTag ++ jsIntToChars (-12)) :=
  ⟨(C10_key_selection c10state 5 7 0).1 (by norm_num),
   (C10_key_selection c10state (-12) 7 0).2.1 (by norm_num),
   (C10_key_selection c10state 5 7 0).2.2.1 (by norm_num) (-12)⟩

/-!
### Quota monotonicity (C3)
-/

/-- Every stored counter is within its key's weekly limit. -/
def LimiterWF (cfg : LimiterConfig) (s : LimiterState) : Prop :=
  ∀ p ∈ s.usage, (p : List Char × UsageData).2.count ≤ keyLimit cfg p.1

instance (cfg : LimiterConfig) (s : LimiterState) :
    Decidable (LimiterWF cfg s) := by
  unfold LimiterWF
  infer_instance

/-- One client call to the rate limiter. -/
inductive LimiterOp
  | check (chatId userId now : Int)
  | use (chatId userId now : Int)
deriving DecidableEq, Repr

def runLimiterOp (cfg : LimiterConfig) (s : LimiterState) :
    LimiterOp → LimiterState
  | .check c u n => (checkLimit cfg s c u n).2
  | .use c u n => (consume cfg s c u n).2

def runLimiterOps (cfg : LimiterConfig) (s : LimiterState)
    (ops : List LimiterOp) : LimiterState :=
  ops.foldl (runLimiterOp cfg) s

theorem lookupA_wf (cfg : LimiterConfig) (s : LimiterState)
    (hwf : LimiterWF cfg s) (key : List Char) (data : UsageData)
    (h : lookupA s.usage key = some data) : data.count ≤ keyLimit cfg key :=
  hwf (key, data) (mem_of_lookupA _ _ _ h)

theorem getUsage_count_le (cfg : LimiterConfig) (s : LimiterState)
    (hwf : LimiterWF cfg s) (key : List Char) (now : Int) :
    (getUsage s key now).1.count ≤ keyLimit cfg key := by
  rcases getUsage_count_cases s key now with h | h
  · omega
  · exact lookupA_wf cfg s hwf key _ h

theorem wf_setA (cfg : LimiterConfig) (s : LimiterState)
    (hwf : LimiterWF cfg s) (key : List Char) (d : UsageData)
    (hd : d.count ≤ keyLimit cfg key) :
    LimiterWF cfg ⟨setA s.usage key d⟩ := by
  intro p hp
  obtain ⟨k, v⟩ := p
  by_cases hk : k = key
  · subst hk
    -- in a `setA` image, every entry at `key` carries exactly `d`
    have : ∀ (l : List (List Char × UsageData)),
        (∀ q ∈ l, (q : List Char × UsageData).2.count ≤ keyLimit cfg q.1) →
        (k, v) ∈ setA l k d → v.count ≤ keyLimit cfg k := by
      intro l
      induction l with
      | nil =>
          intro _ hmem
          simp [setA] at hmem
          rw [hmem]
          exact hd
      | cons hd0 tl ih =>
          intro hwl hmem
          obtain ⟨k0, v0⟩ := hd0
          by_cases h0 : k0 = k
          · subst h0
            simp only [setA, if_pos rfl] at hmem
            rcases List.mem_cons.mp hmem with h | h
            · have : v = d := by
                have := congrArg Prod.snd h
                simpa using this
              rw [this]; exact hd
            · exact hwl (k0, v) (List.mem_cons_of_mem _ h)
          · simp only [setA, if_neg h0] at hmem
            rcases List.mem_cons.mp hmem with h | h
            · exfalso
              have := congrArg Prod.fst h
              simp at this
              exact h0 this.symm
            · exact ih (fun q hq => hwl q (List.mem_cons_of_mem _ hq)) h
    exact this s.usage hwf hp
  · -- entries at other keys are untouched by `setA`
    have : ∀ (l : List (List Char × UsageData)),
        (∀ q ∈ l, (q : List Char × UsageData).2.count ≤ keyLimit cfg q.1) →
        (k, v) ∈ setA l key d → v.count ≤ keyLimit cfg k := by
      intro l
      induction l with
      | nil =>
          intro _ hmem
          simp [setA] at hmem
          exact absurd hmem.1 hk
      | cons hd0 tl ih =>
          intro hwl hmem
          obtain ⟨k0, v0⟩ := hd0
          by_cases h0 : k0 = key
          · subst h0
            simp only [setA, if_pos rfl] at hmem
            rcases List.mem_cons.mp hmem with h | h
            · exfalso
              have := congrArg Prod.fst h
              simp at this
              exact hk this
            · exact hwl (k, v) (List.mem_cons_of_mem _ h)
          · simp only [setA, if_neg h0] at hmem
            rcases List.mem_cons.mp hmem with h | h
            · have h1 := congrArg Prod.fst h
              have h2 := congrArg Prod.snd h
              simp at h1 h2
              subst h1
              subst h2
              exact hwl (k, v) (List.mem_cons_self _ _)
            · exact ih (fun q hq => hwl q (List.mem_cons_of_mem _ hq)) h
    exact this s.usage hwf hp

theorem wf_of_usage_eq (cfg : LimiterConfig) {s t : LimiterState}
    (h : t.usage = s.usage) (hwf : LimiterWF cfg s) : LimiterWF cfg t := by
  intro p hp
  rw [h] at hp
  exact hwf p hp

theorem wf_getUsage (cfg : LimiterConfig) (s : LimiterState)
    (hwf : LimiterWF cfg s) (key : List Char) (now : Int) :
    LimiterWF cfg (getUsage s key now).2 := by
  rcases getUsage_state_cases s key now with h | ⟨h, _⟩
  · exact wf_of_usage_eq cfg h
      (wf_setA cfg s hwf key _ (getUsage_count_le cfg s hwf key now))
  · exact wf_of_usage_eq cfg h hwf

theorem checkLimit_state_eq (cfg : LimiterConfig) (s : LimiterState)
    (chatId userId now : Int) :
    (checkLimit cfg s chatId userId now).2 =
      (getUsage s (getKeyAndLimit cfg chatId userId).1 now).2 := rfl

theorem wf_consume (cfg : LimiterConfig) (s : LimiterState)
    (hwf : LimiterWF cfg s) (chatId userId now : Int) :
    LimiterWF cfg (consume cfg s chatId userId now).2 := by
  simp only [consume]
  split
  · exact wf_getUsage cfg s hwf _ now
  · next hno =>
      apply wf_of_usage_eq cfg (t := ⟨setA _ _ _⟩) rfl
      apply wf_setA cfg _ (wf_getUsage cfg s hwf _ now)
      have hcoh := keyLimit_coherent cfg chatId userId
      simp only [ge_iff_le, not_le] at hno
      simp only
      omega

theorem wf_runLimiterOps (cfg : LimiterConfig) (s : LimiterState)
    (hwf : LimiterWF cfg s) (ops : List LimiterOp) :
    LimiterWF cfg (runLimiterOps cfg s ops) := by
  induction ops generalizing s with
  | nil => exact hwf
  | cons op rest ih =>
      have hstep : LimiterWF cfg (runLimiterOp cfg s op) := by
        cases op with
        | check c u n => exact wf_getUsage cfg s hwf _ n
        | use c u n => exact wf_consume cfg s hwf c u n
      exact ih _ hstep

theorem getUsage_found_live (s : LimiterState) (key : List Char)
    (now : Int) (data : UsageData)
    (h : lookupA s.usage key = some data) (hlive : now < data.resetAt) :
    getUsage s key now = (data, s) := by
  unfold getUsage
  simp only [h, Option.getD_some]
  rw [if_neg (by omega)]

theorem getUsage_found_reset (s : LimiterState) (key : List Char)
    (now : Int) (data : UsageData)
    (h : lookupA s.usage key = some data) (hreset : now ≥ data.resetAt) :
    (getUsage s key now).1 = ⟨0, getNextMondayReset now⟩ := by
  unfold getUsage
  simp only [h, Option.getD_some]
  rw [if_pos (by omega)]

/-- C3: quota monotonicity.  Starting from any well-formed limiter state
(every stored `count` is within its key's limit): (1) after any sequence
of `checkLimit`/`consume` calls every count is still in `[0, limit]`
(the lower bound is inherent in the `Nat` counter); (2) when a key's
count has reached its limit and the reset time has not passed, `consume`
returns `success: false` and leaves the whole state unchanged; (3) once
the window reset time is reached, the next access sees the count reset
to 0. -/
theorem C3_quota_monotonic (cfg : LimiterConfig) (s : LimiterState)
    (hwf : LimiterWF cfg s) :
    (∀ ops : List LimiterOp, LimiterWF cfg (runLimiterOps cfg s ops)) ∧
    (∀ chatId userId now : Int, ∀ data : UsageData,
        lookupA s.usage (getKeyAndLimit cfg chatId userId).1 = some data →
        data.count = (getKeyAndLimit cfg chatId userId).2.1 →
        now < data.resetAt →
        (consume cfg s chatId userId now).1.success = false ∧
        (consume cfg s chatId userId now).2 = s) ∧
    (∀ chatId userId now : Int, ∀ data : UsageData,
        lookupA s.usage (getKeyAndLimit cfg chatId userId).1 = some data →
        now ≥ data.resetAt →
        (checkLimit cfg s chatId userId now).1.used = 0) := by
  refine ⟨wf_runLimiterOps cfg s hwf, ?_, ?_⟩
  · intro chatId userId now data hl hc hn
    have hgu := getUsage_found_live s _ now data hl hn
    simp only [consume, hgu]
    rw [if_pos (by omega)]
    exact ⟨rfl, rfl⟩
  · intro chatId userId now data hl hn
    have hgu := getUsage_found_reset s _ now data hl hn
    simp [checkLimit, hgu]

/-- A concrete limiter state at the PM limit, used to witness C3. -/
def c3state : LimiterState :=
  ⟨[(userKeyTag ++ jsIntToChars 7, ⟨25, 1000⟩)]⟩

/-- Witness for C3: with user 7's PM counter at 25/25 and reset time
1000, a consume at time 500 fails and changes nothing, any op sequence
keeps the invariant, and a check at time 2000 sees a reset count of 0. -/
theorem C3_quota_monotonic_witness :
    LimiterWF botLimiterConfig
      (runLimiterOps botLimiterConfig c3state
        [LimiterOp.use 5 7 500, LimiterOp.check 5 7 600]) ∧
    (consume botLimiterConfig c3state 5 7 500).1.success = false ∧
    (consume botLimiterConfig c3state 5 7 500).2 = c3state ∧
    (checkLimit botLimiterConfig c3state 5 7 2000).1.used = 0 := by
  have h := C3_quota_monotonic botLimiterConfig c3state (by decide)
  exact ⟨h.1 _,
    (h.2.1 5 7 500 ⟨25, 1000⟩ (by decide) (by decide) (by decide)).1,
    (h.2.1 5 7 500 ⟨25, 1000⟩ (by decide) (by decide) (by decide)).2,
    h.2.2 5 7 2000 ⟨25, 1000⟩ (by decide) (by decide)⟩

/-!
## ResultCache (telegramBot.js lines 588-669)

A TTL cache keyed by `` `${chatId}_${scientificName}` ``, instantiated
with a 5-minute TTL.  `get` evicts and misses on an expired entry;
`clearChat` deletes every key with the chat's `${chatId}_` prefix.  The
cached payload is opaque to the cache, so it is modelled as `Nat`.
-/

/-- `{value, timestamp}` record stored by `ResultCache.set`. -/
structure CacheEntry where
  value : Nat
  timestamp : Int
deriving DecidableEq, Repr

/-- `this.cache` plus the constructor's `ttlMs`. -/
structure CacheState where
  cache : List (List Char × CacheEntry)
  ttl : Int
deriving DecidableEq, Repr

/-- `ResultCache.makeKey(chatId, scientificName)`. -/
def makeKey (chatId : Int) (scientificName : List Char) : List Char :=
  jsIntToChars chatId ++ '_' :: scientificName

/-- `set(key, value)`: store with the current timestamp. -/
def cacheSet (s : CacheState) (key : List Char) (v : Nat) (now : Int) :
    CacheState :=
  { s with cache := setA s.cache key ⟨v, now⟩ }

/-- `get(key)`: miss on absent, evict-and-miss past TTL, else hit. -/
def cacheGet (s : CacheState) (key : List Char) (now : Int) :
    Option Nat × CacheState :=
  match lookupA s.cache key with
  | none => (none, s)
  | some entry =>
      if now - entry.timestamp > s.ttl then
        (none, { s with cache := eraseA s.cache key })
      else
        (some entry.value, s)

/-- `clearChat(chatId)`: delete every key starting with `` `${chatId}_` ``. -/
def clearChat (s : CacheState) (chatId : Int) : CacheState :=
  { s with
    cache := s.cache.filter
      (fun kv => ! (jsIntToChars chatId ++ ['_']).isPrefixOf kv.1) }

theorem mem_keys_setA {κ α : Type} [DecidableEq κ]
    (l : List (κ × α)) (k : κ) (v : α) (x : κ)
    (h : x ∈ (setA l k v).map Prod.fst) : x = k ∨ x ∈ l.map Prod.fst := by
  induction l with
  | nil =>
      simp [setA] at h
      exact Or.inl h
  | cons hd tl ih =>
      obtain ⟨k0, v0⟩ := hd
      by_cases h0 : k0 = k
      · simp only [setA] at h
        rw [if_pos h0] at h
        simp only [List.map_cons, List.mem_cons] at h
        simp only [List.map_cons, List.mem_cons]
        tauto
      · simp only [setA] at h
        rw [if_neg h0] at h
        simp only [List.map_cons, List.mem_cons] at h
        simp only [List.map_cons, List.mem_cons]
        rcases h with h | h
        · tauto
        · rcases ih h with h2 | h2 <;> tauto

theorem setA_keys_nodup {κ α : Type} [DecidableEq κ]
    (l : List (κ × α)) (k : κ) (v : α) (hnd : (l.map Prod.fst).Nodup) :
    ((setA l k v).map Prod.fst).Nodup := by
  induction l with
  | nil => simp [setA]
  | cons hd tl ih =>
      obtain ⟨k0, v0⟩ := hd
      simp only [List.map_cons, List.nodup_cons] at hnd
      by_cases h0 : k0 = k
      · simp only [setA]
        rw [if_pos h0]
        simp only [List.map_cons, List.nodup_cons]
        exact hnd
      · simp only [setA]
        rw [if_neg h0]
        simp only [List.map_cons, List.nodup_cons]
        refine ⟨?_, ih hnd.2⟩
        intro hmem
        rcases mem_keys_setA tl k v k0 hmem with h | h
        · exact h0 h
        · exact hnd.1 h

/-- C8: a value written by `set` at time `T` is returned by every `get`
strictly before `T + TTL`; a `get` strictly after `T + TTL` misses and
removes the entry as a side effect of that read. -/
theorem C8_cache_ttl (s : CacheState) (key : List Char) (v : Nat)
    (T t : Int) (hnd : (s.cache.map Prod.fst).Nodup) :
    (t < T + s.ttl → (cacheGet (cacheSet s key v T) key t).1 = some v) ∧
    (t > T + s.ttl →
      (cacheGet (cacheSet s key v T) key t).1 = none ∧
      lookupA (cacheGet (cacheSet s key v T) key t).2.cache key = none) := by
  have hset : lookupA (setA s.cache key ⟨v, T⟩) key = some ⟨v, T⟩ :=
    lookupA_setA_self s.cache key ⟨v, T⟩
  constructor
  · intro hlt
    simp only [cacheGet, cacheSet, hset]
    rw [if_neg (by omega)]
  · intro hgt
    simp only [cacheGet, cacheSet, hset]
    rw [if_pos (by omega)]
    refine ⟨rfl, ?_⟩
    exact lookupA_eraseA_self _ key (setA_keys_nodup s.cache key ⟨v, T⟩ hnd)

/-- Witness for C8 on a concrete cache: TTL 300000, write at T = 1000,
hit at t = 300999, miss-and-evict at t = 301001. -/
theorem C8_cache_ttl_witness :
    (cacheGet (cacheSet ⟨[], 300000⟩ (makeKey 5 ['x']) 42 1000)
        (makeKey 5 ['x']) 300999).1 = some 42 ∧
    (cacheGet (cacheSet ⟨[], 300000⟩ (makeKey 5 ['x']) 42 1000)
        (makeKey 5 ['x']) 301001).1 = none ∧
    lookupA (cacheGet (cacheSet ⟨[], 300000⟩ (makeKey 5 ['x']) 42 1000)
        (makeKey 5 ['x']) 301001).2.cache (makeKey 5 ['x']) = none := by
  have h1 := C8_cache_ttl ⟨[], 300000⟩ (makeKey 5 ['x']) 42 1000 300999 (by decide)
  have h2 := C8_cache_ttl ⟨[], 300000⟩ (makeKey 5 ['x']) 42 1000 301001 (by decide)
  exact ⟨h1.1 (by decide), (h2.2 (by decide)).1, (h2.2 (by decide)).2⟩

theorem append_underscore_isPrefixOf (xs : List Char) :
    ∀ ys l : List Char, '_' ∉ xs → '_' ∉ ys →
    (xs ++ ['_']).isPrefixOf (ys ++ '_' :: l) = true → xs = ys := by
  induction xs with
  | nil =>
      intro ys l _ hy h
      cases ys with
      | nil => rfl
      | cons b bs =>
          exfalso
          simp only [List.nil_append, List.cons_append, List.isPrefixOf,
            Bool.and_eq_true, beq_iff_eq] at h
          exact hy (by simp [← h.1])
  | cons a as ih =>
      intro ys l hx hy h
      cases ys with
      | nil =>
          exfalso
          simp only [List.cons_append, List.nil_append, List.isPrefixOf,
            Bool.and_eq_true, beq_iff_eq] at h
          exact hx (by simp [h.1])
      | cons b bs =>
          simp only [List.cons_append, List.isPrefixOf, Bool.and_eq_true,
            beq_iff_eq] at h
          have hx2 : '_' ∉ as := fun hm => hx (List.mem_cons_of_mem _ hm)
          have hy2 : '_' ∉ bs := fun hm => hy (List.mem_cons_of_mem _ hm)
          rw [h.1, ih bs l hx2 hy2 h.2]

/-- The `${chatId}_` deletion marker of `clearChat` matches a
`makeKey`-built key exactly when the chat ids agree: decimal renderings
contain no underscore, so the first `_` of the key delimits the chat id. -/
theorem clearChat_marker_matches (c c' : Int) (n : List Char) :
    (jsIntToChars c ++ ['_']).isPrefixOf (makeKey c' n) = true ↔ c = c' := by
  constructor
  · intro h
    exact jsIntToChars_injective c c'
      (append_underscore_isPrefixOf (jsIntToChars c) (jsIntToChars c') n
        (underscore_not_mem_jsIntToChars c) (underscore_not_mem_jsIntToChars c') h)
  · rintro rfl
    unfold makeKey
    have hsp : jsIntToChars c ++ '_' :: n = (jsIntToChars c ++ ['_']) ++ n := by
      simp
    rw [hsp]
    exact isPrefixOf_append_self _ _

theorem lookupA_filter_none {κ α : Type} [DecidableEq κ]
    (l : List (κ × α)) (p : κ × α → Bool) (k : κ)
    (hp : ∀ v, p (k, v) = false) : lookupA (l.filter p) k = none := by
  induction l with
  | nil => rfl
  | cons hd tl ih =>
      obtain ⟨k0, v0⟩ := hd
      rw [List.filter_cons]
      by_cases h0 : k0 = k
      · subst h0
        rw [hp v0]
        simp only [Bool.false_eq_true, if_false]
        exact ih
      · cases hpv : p (k0, v0)
        · simp only [Bool.false_eq_true, if_false]
          exact ih
        · simp only [if_true]
          simp [lookupA, h0, ih]

theorem lookupA_filter_keep {κ α : Type} [DecidableEq κ]
    (l : List (κ × α)) (p : κ × α → Bool) (k : κ)
    (hp : ∀ v, p (k, v) = true) : lookupA (l.filter p) k = lookupA l k := by
  induction l with
  | nil => rfl
  | cons hd tl ih =>
      obtain ⟨k0, v0⟩ := hd
      rw [List.filter_cons]
      by_cases h0 : k0 = k
      · subst h0
        rw [hp v0]
        simp [lookupA]
      · cases hpv : p (k0, v0)
        · simp only [Bool.false_eq_true, if_false]
          rw [ih]
          simp [lookupA, h0]
        · simp only [if_true]
          simp [lookupA, h0, ih]

/-- C9: `clearChat(chatId)` removes exactly the entries whose key was
built (via `makeKey`) for that chat; every entry of any other chat keeps
its key, value and timestamp (its lookup is unchanged), and no entry is
added or modified (the new table is a sublist of the old one). -/
theorem C9_clearChat_isolation (s : CacheState) (c : Int) :
    (∀ n : List Char, lookupA (clearChat s c).cache (makeKey c n) = none) ∧
    (∀ c' : Int, c' ≠ c → ∀ n : List Char,
      lookupA (clearChat s c).cache (makeKey c' n) =
        lookupA s.cache (makeKey c' n)) ∧
    List.Sublist (clearChat s c).cache s.cache := by
  refine ⟨?_, ?_, ?_⟩
  · intro n
    apply lookupA_filter_none
    intro v
    rw [(clearChat_marker_matches c c n).mpr rfl]
    rfl
  · intro c' hc n
    apply lookupA_filter_keep
    intro v
    have hne : (jsIntToChars c ++ ['_']).isPrefixOf (makeKey c' n) = false := by
      cases hb : (jsIntToChars c ++ ['_']).isPrefixOf (makeKey c' n)
      · rfl
      · exact absurd ((clearChat_marker_matches c c' n).mp hb)
          (fun h => hc h.symm)
    simp [hne]
  · exact List.filter_sublist _

/-- A concrete cache with entries for chats 5 and -3, to witness C9. -/
def c9state : CacheState :=
  ⟨[(makeKey 5 ['a'], ⟨1, 10⟩), (makeKey (-3) ['b'], ⟨2, 20⟩)], 300000⟩

/-- Witness for C9: clearing chat 5 removes the chat-5 entry and leaves
the chat -3 entry with value and timestamp intact. -/
theorem C9_clearChat_isolation_witness :
    lookupA (clearChat c9state 5).cache (makeKey 5 ['a']) = none ∧
    lookupA (clearChat c9state 5).cache (makeKey (-3) ['b']) =
      lookupA c9state.cache (makeKey (-3) ['b']) :=
  ⟨(C9_clearChat_isolation c9state 5).1 ['a'],
   (C9_clearChat_isolation c9state 5).2.1 (-3) (by decide) ['b']⟩

/-!
## MediaGroupCollector (telegramBot.js lines 1672-1721)

`addPhoto(mediaGroupId, ctx)` appends `{photo, messageId}` to
`this.groups.get(mediaGroupId).photos`.  The first photo of an unseen
group id creates the entry, stores the caller's resolver and arms the
collection timer; every later photo of the same group resolves `null`
to its own caller immediately.  When the timer fires the group is
deleted and the accumulated photo list is resolved to the first caller.
Photo handles and message ids are opaque (`Nat`), group ids are strings.
-/

/-- `{photo, messageId}` as pushed by `addPhoto` (the grammy ctx of each
photo is only used to read these). -/
structure MediaGroupPhoto where
  photo : Nat
  messageId : Nat
deriving DecidableEq, Repr

/-- One entry of `this.groups`: accumulated photos, the owning chat and
user, and the resolver of the first caller's promise (the timer also
lives here; firing is modelled by `timerFire`). -/
structure GroupEntry where
  photos : List MediaGroupPhoto
  chatId : Int
  userId : Int
  firstCaller : Nat
deriving DecidableEq, Repr

structure CollectorState where
  groups : List (List Char × GroupEntry)
deriving DecidableEq, Repr

/-- What `addPhoto` does with the caller's promise: the first caller's
promise stays pending until the timer fires; later callers get `null`. -/
inductive AddResult
  | pendingFirst
  | resolvedNull
deriving DecidableEq, Repr

/-- One `addPhoto(mediaGroupId, ctx)` invocation. -/
structure AddEvent where
  gid : List Char
  photo : MediaGroupPhoto
  chatId : Int
  userId : Int
  caller : Nat
deriving DecidableEq, Repr

def addPhoto (s : CollectorState) (e : AddEvent) : CollectorState × AddResult :=
  match lookupA s.groups e.gid with
  | none =>
      (⟨setA s.groups e.gid ⟨[e.photo], e.chatId, e.userId, e.caller⟩⟩,
       AddResult.pendingFirst)
  | some g =>
      (⟨setA s.groups e.gid { g with photos := g.photos ++ [e.photo] }⟩,
       AddResult.resolvedNull)

def runAdds (s : CollectorState) (evs : List AddEvent) : CollectorState :=
  evs.foldl (fun st e => (addPhoto st e).1) s

/-- The collection timer of `mediaGroupId` firing: delete the group and
resolve the photo list to the first caller. -/
def timerFire (s : CollectorState) (gid : List Char) :
    CollectorState × Option (Nat × List MediaGroupPhoto) :=
  match lookupA s.groups gid with
  | none => (s, none)
  | some g => (⟨eraseA s.groups gid⟩, some (g.firstCaller, g.photos))

theorem addPhoto_frame (s : CollectorState) (e : AddEvent) (g : List Char)
    (hg : g ≠ e.gid) :
    lookupA (addPhoto s e).1.groups g = lookupA s.groups g := by
  unfold addPhoto
  cases hl : lookupA s.groups e.gid <;>
    · simp only
      exact lookupA_setA_ne _ _ _ _ hg

theorem runAdds_group_found (evs : List AddEvent) :
    ∀ (s : CollectorState) (g : List Char) (gr : GroupEntry),
    lookupA s.groups g = some gr →
    lookupA (runAdds s evs).groups g =
      some { gr with
        photos := gr.photos ++
          (evs.filter (fun e => e.gid = g)).map (fun e => e.photo) } := by
  induction evs with
  | nil =>
      intro s g gr h
      simp only [runAdds, List.foldl_nil, List.filter_nil, List.map_nil,
        List.append_nil]
      exact h
  | cons e rest ih =>
      intro s g gr h
      have hrun : runAdds s (e :: rest) = runAdds (addPhoto s e).1 rest := rfl
      rw [hrun]
      by_cases hg : e.gid = g
      · have hstep : lookupA (addPhoto s e).1.groups g =
            some { gr with photos := gr.photos ++ [e.photo] } := by
          unfold addPhoto
          rw [hg, h]
          exact lookupA_setA_self _ _ _
        rw [ih (addPhoto s e).1 g _ hstep]
        rw [List.filter_cons, if_pos (by simp [hg])]
        simp
      · have hstep : lookupA (addPhoto s e).1.groups g = some gr :=
          (addPhoto_frame s e g (fun h2 => hg h2.symm)).trans h
        rw [ih (addPhoto s e).1 g _ hstep]
        rw [List.filter_cons, if_neg (by simp [hg])]

theorem runAdds_group_fresh (evs : List AddEvent) :
    ∀ (s : CollectorState) (g : List Char),
    lookupA s.groups g = none →
    lookupA (runAdds s evs).groups g =
      match evs.filter (fun e => e.gid = g) with
      | [] => none
      | e0 :: rest =>
          some ⟨e0.photo :: rest.map (fun e => e.photo),
                e0.chatId, e0.userId, e0.caller⟩ := by
  induction evs with
  | nil =>
      intro s g h
      simpa [runAdds] using h
  | cons e rest ih =>
      intro s g h
      have hrun : runAdds s (e :: rest) = runAdds (addPhoto s e).1 rest := rfl
      rw [hrun]
      by_cases hg : e.gid = g
      · have hstep : lookupA (addPhoto s e).1.groups g =
            some ⟨[e.photo], e.chatId, e.userId, e.caller⟩ := by
          unfold addPhoto
          rw [hg, h]
          exact lookupA_setA_self _ _ _
        rw [runAdds_group_found rest (addPhoto s e).1 g _ hstep]
        rw [List.filter_cons, if_pos (by simp [hg])]
        simp
      · have hstep : lookupA (addPhoto s e).1.groups g = none :=
          (addPhoto_frame s e g (fun h2 => hg h2.symm)).trans h
        rw [ih (addPhoto s e).1 g hstep]
        rw [List.filter_cons, if_neg (by simp [hg])]

theorem runAdds_keys_nodup (evs : List AddEvent) :
    ∀ s : CollectorState, (s.groups.map Prod.fst).Nodup →
    ((runAdds s evs).groups.map Prod.fst).Nodup := by
  induction evs with
  | nil => intro s h; exact h
  | cons e rest ih =>
      intro s h
      have hstep : ((addPhoto s e).1.groups.map Prod.fst).Nodup := by
        unfold addPhoto
        cases hl : lookupA s.groups e.gid <;>
          · simp only
            exact setA_keys_nodup _ _ _ h
      exact ih _ hstep

/-- C5: for a burst of `addPhoto` events, those sharing a previously
unseen group id `g` (here `e0 :: grest`, in arrival order, possibly
interleaved with events of other group ids) produce exactly one batch
when `g`'s timer fires: it is delivered to the caller of the first
`g`-photo and contains exactly those photos, each once, in arrival
order; a second fire yields nothing; firing `g` leaves every other
group untouched; and an `addPhoto` call is the (batch-receiving) first
waiter iff its group id was unseen, all later callers getting `null`. -/
theorem C5_media_group_batching (s : CollectorState) (g : List Char)
    (evs : List AddEvent) (e0 : AddEvent) (grest : List AddEvent)
    (hnd : (s.groups.map Prod.fst).Nodup)
    (hfresh : lookupA s.groups g = none)
    (hfilter : evs.filter (fun e => e.gid = g) = e0 :: grest) :
    (timerFire (runAdds s evs) g).2 =
      some (e0.caller, e0.photo :: grest.map (fun e => e.photo)) ∧
    (timerFire (timerFire (runAdds s evs) g).1 g).2 = none ∧
    (∀ g2 : List Char, g2 ≠ g →
      lookupA (timerFire (runAdds s evs) g).1.groups g2 =
        lookupA (runAdds s evs).groups g2) ∧
    (∀ st : CollectorState, ∀ e : AddEvent, ∀ gr : GroupEntry,
      lookupA st.groups e.gid = some gr →
      (addPhoto st e).2 = AddResult.resolvedNull) ∧
    (∀ st : CollectorState, ∀ e : AddEvent,
      lookupA st.groups e.gid = none →
      (addPhoto st e).2 = AddResult.pendingFirst) := by
  have hlook := runAdds_group_fresh evs s g hfresh
  rw [hfilter] at hlook
  simp only at hlook
  refine ⟨?_, ?_, ?_, ?_, ?_⟩
  · unfold timerFire
    rw [hlook]
  · unfold timerFire
    rw [hlook]
    simp only
    rw [lookupA_eraseA_self _ _ (runAdds_keys_nodup evs s hnd)]
  · intro g2 hg2
    unfold timerFire
    rw [hlook]
    simp only
    exact lookupA_eraseA_ne _ _ _ hg2
  · intro st e gr h
    unfold addPhoto
    rw [h]
  · intro st e h
    unfold addPhoto
    rw [h]

/-- Three photo events: two for group "a" (callers 1 and 3) with a
group-"b" photo interleaved, to witness C5. -/
def c5events : List AddEvent :=
  [⟨['a'], ⟨10, 100⟩, 5, 7, 1⟩,
   ⟨['b'], ⟨20, 200⟩, 6, 8, 2⟩,
   ⟨['a'], ⟨30, 300⟩, 5, 7, 3⟩]

/-- Witness for C5: the "a" batch goes to caller 1 with photos 10 and 30
in order (photo 20 of group "b" excluded), a second fire yields nothing,
group "b" is untouched by the fire, and a photo added to the in-progress
group "b" resolves null while a fresh group id becomes the waiter. -/
theorem C5_media_group_batching_witness :
    (timerFire (runAdds ⟨[]⟩ c5events) ['a']).2 =
      some (1, [⟨10, 100⟩, ⟨30, 300⟩]) ∧
    (timerFire (timerFire (runAdds ⟨[]⟩ c5events) ['a']).1 ['a']).2 = none ∧
    lookupA (timerFire (runAdds ⟨[]⟩ c5events) ['a']).1.groups ['b'] =
      lookupA (runAdds ⟨[]⟩ c5events).groups ['b'] ∧
    (addPhoto ⟨[(['b'], ⟨[⟨20, 200⟩], 6, 8, 2⟩)]⟩
        ⟨['b'], ⟨40, 400⟩, 6, 8, 4⟩).2 = AddResult.resolvedNull ∧
    (addPhoto ⟨[]⟩ ⟨['b'], ⟨20, 200⟩, 6, 8, 2⟩).2 = AddResult.pendingFirst := by
  have h := C5_media_group_batching ⟨[]⟩ ['a'] c5events
    ⟨['a'], ⟨10, 100⟩, 5, 7, 1⟩ [⟨['a'], ⟨30, 300⟩, 5, 7, 3⟩]
    (by decide) (by decide) (by decide)
  exact ⟨h.1, h.2.1, h.2.2.1 ['b'] (by decide),
    h.2.2.2.1 _ _ ⟨[⟨20, 200⟩], 6, 8, 2⟩ (by decide),
    h.2.2.2.2 _ _ (by decide)⟩

/-!
## RequestManager (telegramBot.js lines 30-314)

`this.requests : Map<string, RequestContext>` with secondary indexes
`userRequests : Map<number, Set<string>>` and
`chatRequests : Map<number, Set<string>>`.  JS `Set`s iterate in
insertion order, so they are modelled as duplicate-free `List Nat`
(request ids are opaque and modelled as `Nat`; the time-plus-random
string ids of `_generateRequestId` only matter through uniqueness).
`createRequest`'s `...data` spread is not modelled beyond the fields
present here: the manager-level claims only concern identity, status,
buffer presence and timestamps.
-/

inductive RStatus
  | pending
  | processing
  | completed
  | failed
  | expired
deriving DecidableEq, Repr

/-- `completed`/`failed`/`expired` are the terminal states. -/
def RStatus.isTerminal : RStatus → Bool
  | .completed => true
  | .failed => true
  | .expired => true
  | _ => false

structure RequestContext where
  userId : Int
  chatId : Int
  messageId : Nat
  status : RStatus
  createdAt : Int
  hasBuffer : Bool
deriving DecidableEq, Repr

structure ManagerState where
  requests : List (Nat × RequestContext)
  userRequests : List (Int × List Nat)
  chatRequests : List (Int × List Nat)
  maxRequestsPerUser : Nat
deriving DecidableEq, Repr

/-- `createdAt` of a tracked id (0 when untracked; only used under
hypotheses that the id is tracked). -/
def createdAtOf (s : ManagerState) (id : Nat) : Int :=
  match lookupA s.requests id with
  | some r => r.createdAt
  | none => 0

/-- The `Set.delete` / empty-set cleanup step of `_removeRequest` on one
secondary index. -/
def removeIdFrom (m : List (Int × List Nat)) (key : Int) (reqId : Nat) :
    List (Int × List Nat) :=
  match lookupA m key with
  | none => m
  | some ids =>
      if ids.erase reqId = [] then eraseA m key
      else setA m key (ids.erase reqId)

/-- `_removeRequest(requestId)`: no-op when untracked, else delete from
the main map and both indexes. -/
def removeRequest (s : ManagerState) (reqId : Nat) : ManagerState :=
  match lookupA s.requests reqId with
  | none => s
  | some req =>
      { s with
        requests := eraseA s.requests reqId,
        userRequests := removeIdFrom s.userRequests req.userId reqId,
        chatRequests := removeIdFrom s.chatRequests req.chatId reqId }

/-- `createRequest(ctx, data)`: evict the user's first-inserted tracked
id when the user already has `maxRequestsPerUser` of them, then insert
the new `pending` request and index it (`newId` stands for the freshly
generated unique id). On an empty set `values().next().value` is
`undefined` and `_removeRequest(undefined)` is a no-op. -/
def createRequest (s : ManagerState) (userId chatId : Int)
    (messageId : Nat) (now : Int) (newId : Nat) :
    ManagerState × RequestContext :=
  let userReqs := (lookupA s.userRequests userId).getD []
  let s1 :=
    if s.maxRequestsPerUser ≤ userReqs.length then
      match userReqs with
      | [] => s
      | oldest :: _ => removeRequest s oldest
    else s
  let req : RequestContext :=
    ⟨userId, chatId, messageId, RStatus.pending, now, false⟩
  ({ s1 with
     requests := setA s1.requests newId req,
     userRequests := setA s1.userRequests userId
       ((lookupA s1.userRequests userId).getD [] ++ [newId]),
     chatRequests := setA s1.chatRequests chatId
       ((lookupA s1.chatRequests chatId).getD [] ++ [newId]) }, req)

theorem removeRequest_requests_self (s : ManagerState) (reqId : Nat)
    (req : RequestContext) (h : lookupA s.requests reqId = some req)
    (hnd : (s.requests.map Prod.fst).Nodup) :
    lookupA (removeRequest s reqId).requests reqId = none := by
  unfold removeRequest
  rw [h]
  exact lookupA_eraseA_self _ _ hnd

theorem removeRequest_requests_frame (s : ManagerState) (reqId id : Nat)
    (hne : id ≠ reqId) :
    lookupA (removeRequest s reqId).requests id = lookupA s.requests id := by
  unfold removeRequest
  cases h : lookupA s.requests reqId
  · rfl
  · simp only
    exact lookupA_eraseA_ne _ _ _ hne

theorem removeIdFrom_frame (m : List (Int × List Nat)) (key : Int)
    (reqId : Nat) (u2 : Int) (hne : u2 ≠ key) :
    lookupA (removeIdFrom m key reqId) u2 = lookupA m u2 := by
  unfold removeIdFrom
  cases h : lookupA m key
  · rfl
  · simp only
    split
    · exact lookupA_eraseA_ne _ _ _ hne
    · exact lookupA_setA_ne _ _ _ _ hne

theorem removeRequest_users_frame (s : ManagerState) (reqId : Nat)
    (req : RequestContext) (u2 : Int)
    (h : lookupA s.requests reqId = some req) (hne : u2 ≠ req.userId) :
    lookupA (removeRequest s reqId).userRequests u2 =
      lookupA s.userRequests u2 := by
  unfold removeRequest
  rw [h]
  simp only
  exact removeIdFrom_frame _ _ _ _ hne

/-- C6: when a user already holds `maxRequestsPerUser` live (non-terminal)
tracked requests — listed in insertion order, which for requests is
creation order — a further `createRequest` for that user evicts exactly
the oldest of that user's live requests (the first-inserted one, whose
`createdAt` is minimal), no error being surfaced; every other tracked
request, and every other user's index, is left untouched. -/
theorem C6_per_user_eviction (s : ManagerState) (uid chatId : Int)
    (messageId newId : Nat) (now : Int)
    (oldId : Nat) (restIds : List Nat)
    (hndreq : (s.requests.map Prod.fst).Nodup)
    (hu : lookupA s.userRequests uid = some (oldId :: restIds))
    (hlen : (oldId :: restIds).length = s.maxRequestsPerUser)
    (hlive : ∀ id ∈ oldId :: restIds, ∃ req : RequestContext,
        lookupA s.requests id = some req ∧ req.userId = uid ∧
        req.status.isTerminal = false)
    (horder : (oldId :: restIds).Pairwise
        (fun a b => createdAtOf s a ≤ createdAtOf s b))
    (hnewfresh : newId ∉ oldId :: restIds) :
    (∃ rold : RequestContext, lookupA s.requests oldId = some rold ∧
        rold.userId = uid ∧ rold.status.isTerminal = false ∧
        (∀ id ∈ oldId :: restIds, rold.createdAt ≤ createdAtOf s id)) ∧
    lookupA (createRequest s uid chatId messageId now newId).1.requests oldId
      = none ∧
    (∀ id : Nat, id ≠ oldId → id ≠ newId →
      lookupA (createRequest s uid chatId messageId now newId).1.requests id =
        lookupA s.requests id) ∧
    (∀ u2 : Int, u2 ≠ uid →
      lookupA (createRequest s uid chatId messageId now newId).1.userRequests
          u2 =
        lookupA s.userRequests u2) := by
  obtain ⟨rold, hrold, hruid, hrterm⟩ :=
    hlive oldId (List.mem_cons_self _ _)
  have hne_old_new : oldId ≠ newId := by
    intro h
    exact hnewfresh (h ▸ List.mem_cons_self _ _)
  have hreq_field :
      (createRequest s uid chatId messageId now newId).1.requests =
        setA (removeRequest s oldId).requests newId
          ⟨uid, chatId, messageId, RStatus.pending, now, false⟩ := by
    unfold createRequest
    rw [hu]
    simp only [Option.getD_some]
    rw [if_pos (by omega)]
  have huser_field :
      (createRequest s uid chatId messageId now newId).1.userRequests =
        setA (removeRequest s oldId).userRequests uid
          ((lookupA (removeRequest s oldId).userRequests uid).getD []
            ++ [newId]) := by
    unfold createRequest
    rw [hu]
    simp only [Option.getD_some]
    rw [if_pos (by omega)]
  refine ⟨⟨rold, hrold, hruid, hrterm, ?_⟩, ?_, ?_, ?_⟩
  · intro id hid
    rcases List.mem_cons.mp hid with h | h
    · subst h
      unfold createdAtOf
      rw [hrold]
    · have hpw := (List.pairwise_cons.mp horder).1 id h
      have : createdAtOf s oldId = rold.createdAt := by
        unfold createdAtOf
        rw [hrold]
      omega
  · rw [hreq_field, lookupA_setA_ne _ _ _ _ hne_old_new]
    exact removeRequest_requests_self s oldId rold hrold hndreq
  · intro id hne1 hne2
    rw [hreq_field, lookupA_setA_ne _ _ _ _ hne2]
    exact removeRequest_requests_frame s oldId id hne1
  · intro u2 hne
    rw [huser_field, lookupA_setA_ne _ _ _ _ hne]
    exact removeRequest_users_frame s oldId rold u2 hrold (hruid ▸ hne)

/-- A manager with `maxRequestsPerUser = 2`: user 7 holds live requests
1 (created at 100) and 2 (created at 200), user 8 holds request 3. -/
def c6state : ManagerState :=
  { requests :=
      [(1, ⟨7, 5, 11, RStatus.pending, 100, true⟩),
       (2, ⟨7, 5, 12, RStatus.processing, 200, false⟩),
       (3, ⟨8, 5, 13, RStatus.pending, 50, true⟩)],
    userRequests := [(7, [1, 2]), (8, [3])],
    chatRequests := [(5, [1, 2, 3])],
    maxRequestsPerUser := 2 }

/-- Witness for C6: a third request for user 7 evicts exactly request 1
(user 7's oldest); user 8's request 3 and index entry are untouched. -/
theorem C6_per_user_eviction_witness :
    lookupA (createRequest c6state 7 5 14 300 9).1.requests 1 = none ∧
    lookupA (createRequest c6state 7 5 14 300 9).1.requests 3 =
      lookupA c6state.requests 3 ∧
    lookupA (createRequest c6state 7 5 14 300 9).1.userRequests 8 =
      lookupA c6state.userRequests 8 := by
  have h := C6_per_user_eviction c6state 7 5 14 9 300 1 [2]
    (by decide) (by decide) (by decide)
    (by
      intro id hid
      simp only [List.mem_cons, List.not_mem_nil, or_false] at hid
      rcases hid with rfl | rfl
      · exact ⟨⟨7, 5, 11, RStatus.pending, 100, true⟩,
          by decide, by decide, by decide⟩
      · exact ⟨⟨7, 5, 12, RStatus.processing, 200, false⟩,
          by decide, by decide, by decide⟩)
    (by decide) (by decide)
  exact ⟨h.2.1, h.2.2.1 3 (by decide) (by decide), h.2.2.2 8 (by decide)⟩

/-- JS truthiness of the optional `chatId` parameter of
`findPendingRequest` (default `null` is falsy — and so is `0`). -/
def chatIdTruthy : Option Int → Bool
  | none => false
  | some c => decide (c ≠ 0)

/-- The `if (chatId && req.chatId !== chatId) continue` guard. -/
def chatFilterSkip (chatF : Option Int) (req : RequestContext) : Bool :=
  chatIdTruthy chatF && (req.chatId != chatF.getD 0)

/-- One iteration of `findPendingRequest`'s loop over the user's request
ids, carrying the `latestPending` accumulator. -/
def pendingStep (s : ManagerState) (chatF : Option Int)
    (acc : Option RequestContext) (reqId : Nat) : Option RequestContext :=
  match lookupA s.requests reqId with
  | none => acc
  | some req =>
      if req.status = RStatus.pending ∧ req.hasBuffer = true then
        if chatFilterSkip chatF req then acc
        else
          match acc with
          | none => some req
          | some latest =>
              if latest.createdAt < req.createdAt then some req else acc
      else acc

/-- `findPendingRequest(userId, chatId)`. -/
def findPendingRequest (s : ManagerState) (userId : Int)
    (chatF : Option Int) : Option RequestContext :=
  match lookupA s.userRequests userId with
  | none => none
  | some ids => ids.foldl (pendingStep s chatF) none

/-- What the loop body of `findPendingRequest` accepts (for a truthy
chat id): a `pending` request with a populated buffer in the given chat. -/
def isPendingMatch (c : Int) (req : RequestContext) : Prop :=
  req.status = RStatus.pending ∧ req.hasBuffer = true ∧ req.chatId = c

instance (c : Int) (req : RequestContext) : Decidable (isPendingMatch c req) := by
  unfold isPendingMatch
  infer_instance

theorem pendingStep_spec (s : ManagerState) (c : Int) (hc : c ≠ 0)
    (acc : Option RequestContext) (id : Nat) :
    (pendingStep s (some c) acc id = acc ∧
       ∀ r, lookupA s.requests id = some r → isPendingMatch c r →
         ∃ latest, acc = some latest ∧ r.createdAt ≤ latest.createdAt) ∨
    (∃ r, lookupA s.requests id = some r ∧ isPendingMatch c r ∧
       pendingStep s (some c) acc id = some r ∧
       ∀ a, acc = some a → a.createdAt ≤ r.createdAt) := by
  unfold pendingStep
  cases hl : lookupA s.requests id
  · left
    exact ⟨rfl, by intro r hr; exact absurd hr (by simp)⟩
  · next req =>
    dsimp only
    by_cases hcond : req.status = RStatus.pending ∧ req.hasBuffer = true
    · rw [if_pos hcond]
      by_cases hchat : req.chatId = c
      · have hskip : chatFilterSkip (some c) req = false := by
          unfold chatFilterSkip chatIdTruthy
          simp [hchat]
        rw [if_neg (by simp [hskip])]
        cases hacc : acc
        · right
          refine ⟨req, rfl, ⟨hcond.1, hcond.2, hchat⟩, rfl, ?_⟩
          intro a ha
          simp at ha
        · next latest =>
          dsimp only
          by_cases hlt : latest.createdAt < req.createdAt
          · right
            refine ⟨req, rfl, ⟨hcond.1, hcond.2, hchat⟩, by rw [if_pos hlt], ?_⟩
            intro a ha
            injection ha with ha2
            subst ha2
            omega
          · left
            refine ⟨by rw [if_neg hlt], ?_⟩
            intro r hr hm
            injection hr with hr2
            subst hr2
            exact ⟨latest, rfl, by omega⟩
      · have hskip : chatFilterSkip (some c) req = true := by
          unfold chatFilterSkip chatIdTruthy
          simp [hchat, hc]
        rw [if_pos hskip]
        left
        refine ⟨rfl, ?_⟩
        intro r hr hm
        injection hr with hr2
        subst hr2
        exact absurd hm.2.2 hchat
    · rw [if_neg hcond]
      left
      refine ⟨rfl, ?_⟩
      intro r hr hm
      injection hr with hr2
      subst hr2
      exact absurd ⟨hm.1, hm.2.1⟩ hcond

theorem pendingFold_none (s : ManagerState) (c : Int) (hc : c ≠ 0)
    (ids : List Nat) : ∀ acc : Option RequestContext,
    ids.foldl (pendingStep s (some c)) acc = none →
    acc = none ∧ ∀ id ∈ ids, ∀ r, lookupA s.requests id = some r →
      ¬ isPendingMatch c r := by
  induction ids with
  | nil =>
      intro acc h
      exact ⟨h, by simp⟩
  | cons id0 rest ih =>
      intro acc h
      rw [List.foldl_cons] at h
      obtain ⟨hstepnone, hrest⟩ := ih _ h
      rcases pendingStep_spec s c hc acc id0 with ⟨heq, hkeeps⟩ | ⟨r, hr, hm, hres, _⟩
      · rw [heq] at hstepnone
        refine ⟨hstepnone, ?_⟩
        intro id hid r hrl hmatch
        rcases List.mem_cons.mp hid with h1 | h1
        · subst h1
          obtain ⟨latest, hlat, _⟩ := hkeeps r hrl hmatch
          rw [hstepnone] at hlat
          simp at hlat
        · exact hrest id h1 r hrl hmatch
      · rw [hres] at hstepnone
        simp at hstepnone

theorem pendingFold_some (s : ManagerState) (c : Int) (hc : c ≠ 0)
    (ids : List Nat) : ∀ (acc : Option RequestContext) (req : RequestContext),
    ids.foldl (pendingStep s (some c)) acc = some req →
    (acc = some req ∨
      ∃ id ∈ ids, lookupA s.requests id = some req ∧ isPendingMatch c req) ∧
    (∀ id ∈ ids, ∀ r, lookupA s.requests id = some r →
      isPendingMatch c r → r.createdAt ≤ req.createdAt) ∧
    (∀ a, acc = some a → a.createdAt ≤ req.createdAt) := by
  induction ids with
  | nil =>
      intro acc req h
      simp only [List.foldl_nil] at h
      refine ⟨Or.inl h, by simp, ?_⟩
      intro a ha
      rw [h] at ha
      injection ha with ha2
      rw [ha2]
  | cons id0 rest ih =>
      intro acc req h
      rw [List.foldl_cons] at h
      obtain ⟨horigin, hbound, haccle⟩ := ih _ _ h
      rcases pendingStep_spec s c hc acc id0 with ⟨heq, hkeeps⟩ |
        ⟨r0, hr0, hm0, hres, hup⟩
      · rw [heq] at horigin haccle
        refine ⟨?_, ?_, haccle⟩
        · rcases horigin with h1 | ⟨id, hid, h2⟩
          · exact Or.inl h1
          · exact Or.inr ⟨id, List.mem_cons_of_mem _ hid, h2⟩
        · intro id hid r hrl hmatch
          rcases List.mem_cons.mp hid with h1 | h1
          · subst h1
            obtain ⟨latest, hlat, hle⟩ := hkeeps r hrl hmatch
            have := haccle latest hlat
            omega
          · exact hbound id h1 r hrl hmatch
      · rw [hres] at horigin haccle
        have hr0le : r0.createdAt ≤ req.createdAt := haccle r0 rfl
        refine ⟨?_, ?_, ?_⟩
        · rcases horigin with h1 | ⟨id, hid, h2⟩
          · injection h1 with h2
            subst h2
            exact Or.inr ⟨id0, List.mem_cons_self _ _, hr0, hm0⟩
          · exact Or.inr ⟨id, List.mem_cons_of_mem _ hid, h2⟩
        · intro id hid r hrl hmatch
          rcases List.mem_cons.mp hid with h1 | h1
          · subst h1
            rw [hr0] at hrl
            injection hrl with h2
            subst h2
            omega
          · exact hbound id h1 r hrl hmatch
        · intro a ha
          have := hup a ha
          omega

/-- A pending, buffer-populated request of user 1 living in chat 5. -/
def c7req : RequestContext := ⟨1, 5, 21, RStatus.pending, 100, true⟩

def c7state : ManagerState :=
  { requests := [(4, c7req)],
    userRequests := [(1, [4])],
    chatRequests := [(5, [4])],
    maxRequestsPerUser := 5 }

/-- C7 counterexample: for the given chat id 0 (a falsy JS number), the
`if (chatId && …)` guard is skipped, so `findPendingRequest(1, 0)`
returns a request of chat 5 — a request belonging to a different chat
than the one given, contradicting the claim as stated for every given
chat id. -/
theorem C7_findPending_zero_chat_counterexample :
    findPendingRequest c7state 1 (some 0) = some c7req ∧
    c7req.chatId ≠ 0 := by
  constructor
  · decide
  · decide

/-- C7 (amended to nonzero given chat ids, which JS treats as truthy):
`findPendingRequest(userId, chatId)` returns a most-recently-created
request of that user that is `pending` with a populated buffer and
belongs to the given chat — in particular never one of a different
chat — or `null` exactly when that user has no such request. -/
theorem C7_findPending_scoped (s : ManagerState) (uid c : Int)
    (hc : c ≠ 0) :
    (∀ req : RequestContext, findPendingRequest s uid (some c) = some req →
      (∃ id ∈ (lookupA s.userRequests uid).getD [],
        lookupA s.requests id = some req) ∧
      isPendingMatch c req ∧
      (∀ id ∈ (lookupA s.userRequests uid).getD [], ∀ r : RequestContext,
        lookupA s.requests id = some r → isPendingMatch c r →
        r.createdAt ≤ req.createdAt)) ∧
    (findPendingRequest s uid (some c) = none →
      ∀ id ∈ (lookupA s.userRequests uid).getD [], ∀ r : RequestContext,
        lookupA s.requests id = some r → ¬ isPendingMatch c r) := by
  cases hu : lookupA s.userRequests uid
  · constructor
    · intro req hfind
      unfold findPendingRequest at hfind
      rw [hu] at hfind
      simp at hfind
    · intro _ id hid
      simp at hid
  · next ids =>
    have hfind : findPendingRequest s uid (some c) =
        ids.foldl (pendingStep s (some c)) none := by
      unfold findPendingRequest
      rw [hu]
    constructor
    · intro req h
      rw [hfind] at h
      obtain ⟨horigin, hbound, _⟩ := pendingFold_some s c hc ids none req h
      rcases horigin with h1 | ⟨id, hid, h2, h3⟩
      · simp at h1
      · simp only [Option.getD_some]
        exact ⟨⟨id, hid, h2⟩, h3, hbound⟩
    · intro h
      rw [hfind] at h
      obtain ⟨_, hnone⟩ := pendingFold_none s c hc ids none h
      simp only [Option.getD_some]
      exact hnone

/-- Witness for the amended C7 at the concrete one-request manager:
looking up user 1 in chat 5 finds `c7req`, which matches and is indexed. -/
theorem C7_findPending_scoped_witness :
    isPendingMatch 5 c7req ∧
    (∃ id ∈ (lookupA c7state.userRequests 1).getD [],
      lookupA c7state.requests id = some c7req) := by
  have h := (C7_findPending_scoped c7state 1 5 (by decide)).1 c7req (by decide)
  exact ⟨h.2.1, h.1⟩

/-!
## Identification pipeline failure path (C1) and photo handler (C2)

`identifyAnimal` (geminiService) returns `{success:true, data}` when a
model answered (`data.identified` may be `false` with a reason code) or
`{success:false, error}` when every model failed.  In
`processIdentification` (lines 2520-2592) the branch
`if (!result.success || !result.data.identified)` deletes the status
message, builds a reason-specific error message, sends it, and RETURNS
NORMALLY.  Every single-photo caller then runs
`rateLimiter.consume(...)` followed by
`requestManager.completeAndRemove(requestId)` unconditionally
(message:text handler lines 1311-1316; also lines 1106-1109, 1129-1132,
1882-1885, 2421-2424, 2446-2449), so the caller cannot tell a failed
identification from a delivered result.  The suggestion/tip suffix of
the message is not modelled; the headline selected by the reason
if-chain is.
-/

structure GeminiData where
  identified : Bool
  reason : List Char
  qualityIssue : Option (List Char)
deriving DecidableEq, Repr

structure GeminiResult where
  success : Bool
  data : Option GeminiData
  error : Option (List Char)
deriving DecidableEq, Repr

/-- `!result.success || !result.data.identified` (short-circuit: `data`
is only read when `success` is true). -/
def identificationFailed (res : GeminiResult) : Bool :=
  !res.success ||
    !(match res.data with
      | some d => d.identified
      | none => false)

/-- `result.data?.reason || result.error || 'unknown'`. -/
def failureReason (res : GeminiResult) : List Char :=
  match res.data with
  | some d =>
      if d.reason = [] then (res.error).getD ("unknown".toList) else d.reason
  | none => (res.error).getD ("unknown".toList)

/-- The headline picked by the reason if-chain at lines 2563-2579. -/
def failureMessage (reason : List Char) (qualityIssue : Option (List Char)) :
    List Char :=
  match qualityIssue with
  | some _ => "Image Quality Issue".toList
  | none =>
      if reason = "low_resolution".toList then "Low Resolution".toList
      else if reason = "obstructed".toList then "Animal Obstructed".toList
      else if reason = "too_distant".toList then "Subject Too Far".toList
      else if reason = "poor_quality".toList then "Poor Image Quality".toList
      else if reason = "no_animal".toList then "No Animal Detected".toList
      else if reason = "target_not_found".toList then "Subject Not Found".toList
      else "Could not identify animal".toList

/-- How one `processIdentification` run ends, as seen by its caller. -/
inductive PipeOutcome
  | failureMessageSent (msg : List Char)
  | resultDelivered
deriving DecidableEq, Repr

def processIdentificationModel (res : GeminiResult) : PipeOutcome :=
  if identificationFailed res then
    PipeOutcome.failureMessageSent
      (failureMessage (failureReason res)
        (match res.data with
         | some d => d.qualityIssue
         | none => none))
  else PipeOutcome.resultDelivered

/-- `updateStatus(requestId, status)` (stats counters and `completedAt`
timestamps omitted). -/
def updateStatus (s : ManagerState) (reqId : Nat) (st : RStatus) :
    ManagerState :=
  match lookupA s.requests reqId with
  | none => s
  | some req =>
      { s with requests := setA s.requests reqId { req with status := st } }

/-- `completeAndRemove(requestId)`. -/
def completeAndRemove (s : ManagerState) (reqId : Nat) : ManagerState :=
  removeRequest (updateStatus s reqId RStatus.completed) reqId

structure SinglePhotoRunResult where
  limiter : LimiterState
  manager : ManagerState
  terminalStatus : RStatus
  messages : List (List Char)
deriving DecidableEq, Repr

/-- The single-photo resume branch of `bot.on('message:text')` (lines
1308-1321): mark the request `processing`, await
`processIdentification`, and — since that call returns normally even for
a quality/no-detection failure — unconditionally consume one quota unit
and `completeAndRemove` the request.  `terminalStatus` records the
status the request carries when it is removed. -/
def handleSinglePhotoResume (cfg : LimiterConfig) (ls : LimiterState)
    (ms : ManagerState) (reqId : Nat) (chatId userId now : Int)
    (res : GeminiResult) : SinglePhotoRunResult :=
  let ms1 := updateStatus ms reqId RStatus.processing
  match processIdentificationModel res with
  | PipeOutcome.failureMessageSent m =>
      let r := consume cfg ls chatId userId now
      { limiter := r.2, manager := completeAndRemove ms1 reqId,
        terminalStatus := RStatus.completed, messages := [m] }
  | PipeOutcome.resultDelivered =>
      let r := consume cfg ls chatId userId now
      { limiter := r.2, manager := completeAndRemove ms1 reqId,
        terminalStatus := RStatus.completed, messages := [] }

/-- A classifier quality failure: no animal detected. -/
def c1result : GeminiResult :=
  { success := true,
    data := some { identified := false, reason := "no_animal".toList,
                   qualityIssue := none },
    error := none }

def c1limiter : LimiterState :=
  ⟨[(userKeyTag ++ jsIntToChars 7, ⟨3, 999999999999⟩)]⟩

def c1manager : ManagerState :=
  { requests := [(4, ⟨7, 5, 21, RStatus.pending, 100, true⟩)],
    userRequests := [(7, [4])],
    chatRequests := [(5, [4])],
    maxRequestsPerUser := 5 }

/-- C1 (code bug, demonstrated on the failing input): when the
classifier reports `identified: false` (reason `no_animal`) on a
single-photo run, the pipeline does send the category-specific message,
but the caller then increments the weekly quota count (3 → 4) and the
request is terminated with status `completed` — not `failed`, and not
quota-neutral as the spec (and the code's own comment "Consume rate
limit on successful completion", and its media-group branch, which
consumes only when `result.success && result.data.identified`) require. -/
theorem C1_failure_consumes_quota :
    (handleSinglePhotoResume botLimiterConfig c1limiter c1manager 4
        5 7 1000 c1result).messages = ["No Animal Detected".toList] ∧
    (handleSinglePhotoResume botLimiterConfig c1limiter c1manager 4
        5 7 1000 c1result).terminalStatus = RStatus.completed ∧
    lookupA (handleSinglePhotoResume botLimiterConfig c1limiter c1manager 4
        5 7 1000 c1result).limiter.usage (userKeyTag ++ jsIntToChars 7) =
      some ⟨4, 999999999999⟩ ∧
    lookupA (handleSinglePhotoResume botLimiterConfig c1limiter c1manager 4
        5 7 1000 c1result).manager.requests 4 = none := by
  decide

/-- Observable outcome of one inbound photo event in
`bot.on('message:photo')`. -/
structure PhotoEventResult where
  limiter : LimiterState
  promptShown : Bool
  requestCreated : Bool
  pendingStored : Bool
  messages : List (List Char)
deriving DecidableEq, Repr

/-- Single-photo branch of `bot.on('message:photo')` (lines 1785-1830):
when `checkLimit` denies, the handler logs to the console and `return`s
without replying; otherwise it stores the photo in `pendingPhotos` and
sends the identify prompt.  No `Request` is created here in either case
(requests are created only in the button-callback handler). -/
def handlePhotoMessage (cfg : LimiterConfig) (ls : LimiterState)
    (chatId userId now : Int) : PhotoEventResult :=
  let chk := checkLimit cfg ls chatId userId now
  if !chk.1.allowed then
    { limiter := chk.2, promptShown := false, requestCreated := false,
      pendingStored := false, messages := [] }
  else
    { limiter := chk.2, promptShown := true, requestCreated := false,
      pendingStored := true,
      messages := ["Photo received!".toList] }

/-- Media-group branch of the same handler after collection completes
(lines 1745-1781): identical rate-limit guard, identical silent return. -/
def handleMediaGroupCollected (cfg : LimiterConfig) (ls : LimiterState)
    (chatId userId now : Int) (_photoCount : Nat) : PhotoEventResult :=
  let chk := checkLimit cfg ls chatId userId now
  if !chk.1.allowed then
    { limiter := chk.2, promptShown := false, requestCreated := false,
      pendingStored := false, messages := [] }
  else
    { limiter := chk.2, promptShown := true, requestCreated := false,
      pendingStored := true,
      messages := ["photos received!".toList] }

/-- A quota key already at the 25/25 PM limit with a far-future reset. -/
def c2limiter : LimiterState :=
  ⟨[(userKeyTag ++ jsIntToChars 7, ⟨25, 999999999999⟩)]⟩

/-- C2 counterexample: with user 7's quota exhausted, an inbound photo
event indeed creates no Request and shows no prompt — but the user is
sent no message at all (no exhaustion notice, no reset time): the event
is silently dropped, contradicting the claim. -/
theorem C2_exhausted_photo_counterexample :
    (checkLimit botLimiterConfig c2limiter 5 7 1000).1.allowed = false ∧
    (handlePhotoMessage botLimiterConfig c2limiter 5 7 1000).messages = [] ∧
    (handlePhotoMessage botLimiterConfig c2limiter 5 7 1000).promptShown
      = false ∧
    (handlePhotoMessage botLimiterConfig c2limiter 5 7 1000).requestCreated
      = false ∧
    (handleMediaGroupCollected botLimiterConfig c2limiter 5 7 1000 3).messages
      = [] := by
  decide

/-- C2 (amended): for every inbound photo event — single or media-group —
whose quota key is exhausted, no Request is created, no identification
prompt is shown, no pending photo is stored, and nothing at all is sent
to the user: the event is dropped silently (console log only).  The
exhaustion message with reset-time information exists only in the
button-callback handler (lines 1371-1382). -/
theorem C2_exhausted_photo_silent (cfg : LimiterConfig) (ls : LimiterState)
    (chatId userId now : Int) (photoCount : Nat)
    (h : (checkLimit cfg ls chatId userId now).1.allowed = false) :
    (handlePhotoMessage cfg ls chatId userId now).promptShown = false ∧
    (handlePhotoMessage cfg ls chatId userId now).requestCreated = false ∧
    (handlePhotoMessage cfg ls chatId userId now).pendingStored = false ∧
    (handlePhotoMessage cfg ls chatId userId now).messages = [] ∧
    (handleMediaGroupCollected cfg ls chatId userId now
        photoCount).promptShown = false ∧
    (handleMediaGroupCollected cfg ls chatId userId now
        photoCount).requestCreated = false ∧
    (handleMediaGroupCollected cfg ls chatId userId now
        photoCount).messages = [] := by
  simp only [handlePhotoMessage, handleMediaGroupCollected, h,
    Bool.not_false, if_true]
  exact ⟨trivial, trivial, trivial, trivial, trivial, trivial, trivial⟩

/-- Witness for the amended C2 at the concrete exhausted limiter. -/
theorem C2_exhausted_photo_silent_witness :
    (handlePhotoMessage botLimiterConfig c2limiter 5 7 1000).promptShown
      = false ∧
    (handlePhotoMessage botLimiterConfig c2limiter 5 7 1000).messages = [] ∧
    (handleMediaGroupCollected botLimiterConfig c2limiter 5 7 1000 3).messages
      = [] := by
  have h := C2_exhausted_photo_silent botLimiterConfig c2limiter 5 7 1000 3
    (by decide)
  exact ⟨h.1, h.2.2.2.1, h.2.2.2.2.2.2⟩
